import Mathlib

/-!
Shallow embedding of `src/analyzer.rs` from the `taskchutecloud-cli` repository.

Modelling conventions:
* `chrono::NaiveDateTime` is modelled at minute granularity as an integer count
  of minutes since 1970-01-01 00:00 (a Thursday); `date()` is flooring division
  by 1440 and `weekday()` follows chrono's numbering (Mon = 0 … Sun = 6).
* `f64` arithmetic on ratios is modelled exactly over `ℚ`; the one square root
  (`work_time_per_day_deviation`) lands in `ℝ` via `Real.sqrt`.
* Rust `Option` is Lean `Option`; the two `unwrap`s in the source are modelled
  fallibly (an `unwrap` that would panic becomes `none`), and the safety claims
  prove the failing branch is unreachable in the pipeline.
* Rust `String` ordering (used by `itertools::sorted_by_key` on group labels)
  is byte-lexicographic; on UTF-8 that coincides with the code-point
  lexicographic order given by Mathlib's `LinearOrder String`.
* The stable sorts (`itertools::sorted`, `sorted_by_key`) are modelled by
  `List.insertionSort`, which is also stable; a stable sort by a total
  preorder is extensionally unique, so this is the same function.
-/

namespace Analyzer

/-- Modelled from the spec: the `Project` struct lives in the crate root, outside
`src/analyzer.rs`; per §3/glossary it is a stable id plus a display name. -/
structure Project where
  id : String
  name : String
deriving DecidableEq

/-- Models `chrono::NaiveDateTime` at minute granularity: minutes since the epoch
1970-01-01 00:00. -/
structure NaiveDateTime where
  minutes : ℤ
deriving DecidableEq

/-- Models `NaiveDateTime::date()`: the calendar date as a day number (floor division,
so pre-epoch times also land on the correct civil day). -/
def NaiveDateTime.date (t : NaiveDateTime) : ℤ :=
  Int.fdiv t.minutes 1440

/-- Models `chrono::Datelike::weekday()` as `num_days_from_monday` (Mon = 0 … Sun = 6);
day 0 (1970-01-01) was a Thursday (= 3). -/
def NaiveDateTime.weekday (t : NaiveDateTime) : ℤ :=
  (t.date + 3).emod 7

/-- Modelled from the spec: the `Task` (RawTask) input struct lives in the crate
root, outside `src/analyzer.rs`; fields per §3 and per the analyzer's uses.
`estimated_time` is carried directly in minutes because the analyzer only ever
reads `Duration::num_minutes()` from it. -/
structure Task where
  id : String
  name : String
  project : Option Project
  comment : Option String
  estimated_time : Option ℤ
  begin_time : Option NaiveDateTime
  end_time : Option NaiveDateTime
  holiday : Bool
deriving DecidableEq

/-- Helper for `str::split_whitespace`: accumulates the current word (reversed)
while scanning the character list. -/
def wsSplitGo : List Char → List Char → List String
  | acc, [] => if acc = [] then [] else [String.mk acc.reverse]
  | acc, c :: cs =>
    if c.isWhitespace then
      if acc = [] then wsSplitGo [] cs
      else String.mk acc.reverse :: wsSplitGo [] cs
    else wsSplitGo (c :: acc) cs

/-- Models `str::split_whitespace`: the maximal whitespace-free words of a string, in
order, with no empty tokens. -/
def splitWhitespace (s : String) : List String :=
  wsSplitGo [] s.data

/-- Models `itertools::tuple_combinations::<(_, _)>().next()`: the first ordered pair
of distinct-position elements, i.e. `(x₀, x₁)` when the list has at least two
elements, otherwise nothing. -/
def tupleCombFirst : List String → Option (String × String)
  | a :: b :: _ => some (a, b)
  | _ => none

/-- The `AnalysisResultTask` struct of `analyzer.rs`. -/
structure AnalysisResultTask where
  id : String
  name : String
  group : Option String
  project : Option Project
  comment : Option String
  estimated_time : Option ℤ
  time_gap_ratio : Option ℚ
  begin_time : NaiveDateTime
  end_time : NaiveDateTime
  timespan : ℤ
  holiday : Bool
deriving DecidableEq

/-- Models `impl From<Task> for AnalysisResultTask`, modelled fallibly: the source
unwraps `begin_time` and `end_time`, so a task missing either would panic;
here that branch returns `none`. -/
def AnalysisResultTask.fromTask? (task : Task) : Option AnalysisResultTask :=
  match task.begin_time, task.end_time with
  | some b, some e =>
    some { id := task.id
           name := task.name
           group := (tupleCombFirst (splitWhitespace task.name)).map Prod.fst
           project := task.project
           comment := task.comment
           estimated_time := task.estimated_time
           time_gap_ratio := task.estimated_time.map
             (fun est => ((e.minutes - b.minutes : ℤ) : ℚ) / (est : ℚ))
           begin_time := b
           end_time := e
           timespan := e.minutes - b.minutes
           holiday := task.holiday }
  | _, _ => none

/-- The `Tasks(Vec<AnalysisResultTask>, Option<i64>)` tuple struct. -/
structure Tasks where
  recs : List AnalysisResultTask
  value : Option ℤ
deriving DecidableEq

/-- Models `itertools::group_by` after a sort by key: chunk a list into runs of
adjacent elements sharing the same key, pairing each run with its key. -/
def chunkBy {α β : Type} [DecidableEq β] (key : α → β) : List α → List (β × List α)
  | [] => []
  | a :: rest =>
    match chunkBy key rest with
    | [] => [(key a, [a])]
    | (k, c) :: cs =>
      if key a = k then (k, a :: c) :: cs else (key a, [a]) :: (k, c) :: cs

/-- Models `Tasks::group_by`: stable-sort the records by the key, chunk runs of equal
keys, and rebuild each chunk as a `Tasks` carrying the parent's scalar value. -/
def Tasks.group_by (ts : Tasks) (key : AnalysisResultTask → String) :
    List (String × Tasks) :=
  (chunkBy key (List.insertionSort (fun a b => key a ≤ key b) ts.recs)).map
    (fun p => (p.1, Tasks.mk p.2 ts.value))

/-- Models `Tasks::project_name`: find the first record whose project reference matches
the id, then read that record's project display name. The source unwraps the
project reference; the inner `Option` models that unwrap fallibly. -/
def Tasks.project_name (ts : Tasks) (project_id : String) : Option String :=
  (ts.recs.find? (fun t => (t.project.map (fun p => p.id == project_id)).getD false)).bind
    (fun t => t.project.map (fun p => p.name))

/-- Models `Tasks::total_estimated_time`: sum of the estimates that are present. -/
def Tasks.total_estimated_time (ts : Tasks) : ℤ :=
  (ts.recs.filterMap (fun t => t.estimated_time)).sum

/-- Models `Tasks::total_work_time`: sum over all records of `end − begin` in minutes. -/
def Tasks.total_work_time (ts : Tasks) : ℤ :=
  (ts.recs.map (fun t => t.end_time.minutes - t.begin_time.minutes)).sum

/-- Models `Tasks::work_days`: the number of distinct begin-timestamp calendar dates. -/
def Tasks.work_days (ts : Tasks) : ℤ :=
  ((ts.recs.map (fun t => t.begin_time.date)).dedup).length

/-- Models `Tasks::work_time_per_days`: sort records by begin date, chunk by date, and
total each day's `timespan` fields. -/
def Tasks.work_time_per_days (ts : Tasks) : List (ℤ × ℤ) :=
  (chunkBy (fun a => a.begin_time.date)
      (List.insertionSort (fun a b => a.begin_time.date ≤ b.begin_time.date) ts.recs)).map
    (fun p => (p.1, (p.2.map (fun t => t.timespan)).sum))

/-- Models `Tasks::work_time_per_day`: mean per-day work time, total work over distinct
work days (exact rational in place of `f64`). -/
def Tasks.work_time_per_day (ts : Tasks) : ℚ :=
  (ts.total_work_time : ℚ) / (ts.work_days : ℚ)

/-- Models `Tasks::work_time_per_day_max`. -/
def Tasks.work_time_per_day_max (ts : Tasks) : ℤ :=
  ((ts.work_time_per_days.map (fun p => p.2)).max?).getD 0

/-- Models `Tasks::work_time_per_day_min`. -/
def Tasks.work_time_per_day_min (ts : Tasks) : ℤ :=
  ((ts.work_time_per_days.map (fun p => p.2)).min?).getD 0

/-- Models `Tasks::work_time_per_day_median`: sort the per-day totals ascending and
take index `len / 2`, defaulting to 0 on the empty series. -/
def Tasks.work_time_per_day_median (ts : Tasks) : ℤ :=
  let v := List.insertionSort (fun a b : ℤ => a ≤ b) (ts.work_time_per_days.map (fun p => p.2))
  v.getD (v.length / 2) 0

/-- Models `Tasks::work_time_per_day_deviation`: square root of the sum of squared
per-day deviations from the mean, divided by the number of records. -/
noncomputable def Tasks.work_time_per_day_deviation (ts : Tasks) : ℝ :=
  Real.sqrt
    (((ts.work_time_per_days.map (fun p => ((p.2 : ℚ) - ts.work_time_per_day) ^ 2)).sum
        / (ts.recs.length : ℚ) : ℚ) : ℝ)

/-- Models `Tasks::work_time_per_value`: total work over the carried scalar, when the
scalar is present. -/
def Tasks.work_time_per_value (ts : Tasks) : Option ℚ :=
  ts.value.map (fun v => (ts.total_work_time : ℚ) / (v : ℚ))

/-- Models `Tasks::tasks`: the member record list. -/
def Tasks.tasks (ts : Tasks) : List AnalysisResultTask :=
  ts.recs

/-- The `TasksAnalysisResult` struct (one aggregate report per bucket). -/
structure TasksAnalysisResult where
  total_estimated_time : ℤ
  total_work_time : ℤ
  total_time_gap_ratio : Option ℚ
  work_days : ℤ
  work_time_per_day : ℚ
  work_time_per_day_max : ℤ
  work_time_per_day_min : ℤ
  work_time_per_day_median : ℤ
  work_time_per_day_deviation : ℝ
  work_time_per_value : Option ℚ
  tasks : List AnalysisResultTask

/-- Models `Tasks::analyze`: assemble the aggregate report for one bucket. -/
noncomputable def Tasks.analyze (ts : Tasks) : TasksAnalysisResult :=
  let tw := ts.total_work_time
  let te := ts.total_estimated_time
  { total_estimated_time := te
    total_work_time := tw
    total_time_gap_ratio := if te = 0 then none else some ((tw : ℚ) / (te : ℚ))
    work_days := ts.work_days
    work_time_per_day := ts.work_time_per_day
    work_time_per_day_max := ts.work_time_per_day_max
    work_time_per_day_min := ts.work_time_per_day_min
    work_time_per_day_median := ts.work_time_per_day_median
    work_time_per_day_deviation := ts.work_time_per_day_deviation
    work_time_per_value := ts.work_time_per_value
    tasks := ts.tasks }

/-- The top-level `AnalysisResult` struct. -/
structure AnalysisResult where
  project_name : String
  value : Option ℤ
  all : TasksAnalysisResult
  day : List (String × TasksAnalysisResult)
  group : List (String × TasksAnalysisResult)

/-- The day-type closure in `analyze`: Saturday/Sunday begin dates and
holiday-flagged records map to `"休日"` (holiday), everything else to `"平日"`
(workday). -/
def dayKey (t : AnalysisResultTask) : String :=
  if t.begin_time.weekday = 5 ∨ t.begin_time.weekday = 6 then "休日"
  else if t.holiday then "休日" else "平日"

/-- The group closure in `analyze`: the derived group label, or the sentinel
`"-"` when absent. -/
def groupKey (t : AnalysisResultTask) : String :=
  t.group.getD "-"

/-- The first filter in `analyze`: the task's project reference is present and
its id equals the target. -/
def projectMatches (project_id : String) (t : Task) : Bool :=
  (t.project.map (fun p => p.id == project_id)).getD false

/-- The second filter in `analyze`: `t.begin_time.and(t.end_time).is_some()`,
i.e. both timestamps are present. -/
def hasTimes (t : Task) : Bool :=
  t.begin_time.isSome && t.end_time.isSome

/-- The `Ord` impl for `AnalysisResultTask`: compare by begin timestamp. -/
def taskLe (a b : AnalysisResultTask) : Prop :=
  a.begin_time.minutes ≤ b.begin_time.minutes

instance : DecidableRel taskLe :=
  fun a b => inferInstanceAs (Decidable (a.begin_time.minutes ≤ b.begin_time.minutes))

/-- The `target_tasks` binding in `analyze`: filter to the target project's
tasks with both timestamps, convert each, and sort by begin timestamp. -/
def targetTasks (tasks : List Task) (project_id : String) (value : Option ℤ) : Tasks :=
  Tasks.mk
    (List.insertionSort taskLe
      (((tasks.filter (projectMatches project_id)).filter hasTimes).filterMap
        AnalysisResultTask.fromTask?))
    value

/-- The `analyze_group` helper in `analyze`. -/
noncomputable def analyzeGroup (g : List (String × Tasks)) :
    List (String × TasksAnalysisResult) :=
  g.map (fun p => (p.1, p.2.analyze))

/-- The top-level `analyze` function of `analyzer.rs`. -/
noncomputable def analyze (tasks : List Task) (project_id : String)
    (value : Option ℤ) : Option AnalysisResult :=
  let target_tasks := targetTasks tasks project_id value
  (target_tasks.project_name project_id).map (fun project_name =>
    { project_name := project_name
      value := value
      all := target_tasks.analyze
      day := analyzeGroup (target_tasks.group_by dayKey)
      group := analyzeGroup (target_tasks.group_by groupKey) })

/-! ### Spec-side definitions (written from the spec's wording, to be compared
with the implementation-side definitions above) -/

/-- The distinct calendar dates among the records' begin timestamps, per §4.3. -/
def dayDatesSpec (recs : List AnalysisResultTask) : List ℤ :=
  (recs.map (fun r => r.begin_time.date)).dedup

/-- The per-day total work time for one date, per §4.3: the sum of timespans of
records whose begin timestamp falls on that date. -/
def dayTotalSpec (recs : List AnalysisResultTask) (d : ℤ) : ℤ :=
  ((recs.filter (fun r => decide (r.begin_time.date = d))).map
    (fun r => r.timespan)).sum

/-- The per-day series sorted ascending, per §4.3's median rule. -/
def sortedDaySeriesSpec (recs : List AnalysisResultTask) : List ℤ :=
  List.insertionSort (fun a b : ℤ => a ≤ b) ((dayDatesSpec recs).map (dayTotalSpec recs))

/-- Mean per-day work time per §4.3: total work minutes (sum of timespans) over
the work-day count. -/
def meanPerDaySpec (recs : List AnalysisResultTask) : ℚ :=
  (((recs.map (fun r => r.timespan)).sum : ℤ) : ℚ) /
    ((dayDatesSpec recs).length : ℚ)

/-- Group label derivation per §3: split the name on whitespace; the first
token when at least two tokens exist, otherwise absent. -/
def groupLabelSpec (name : String) : Option String :=
  if 2 ≤ (splitWhitespace name).length then (splitWhitespace name).head? else none

/-- The conversion of §4.1/§3 as a total function on tasks with both timestamps
present (defaults are irrelevant: it is only compared with `fromTask?` under
`hasTimes`). -/
def recordOfTaskSpec (task : Task) : AnalysisResultTask :=
  { id := task.id
    name := task.name
    group := (tupleCombFirst (splitWhitespace task.name)).map Prod.fst
    project := task.project
    comment := task.comment
    estimated_time := task.estimated_time
    time_gap_ratio := task.estimated_time.map
      (fun est => (((task.end_time.getD ⟨0⟩).minutes -
        (task.begin_time.getD ⟨0⟩).minutes : ℤ) : ℚ) / (est : ℚ))
    begin_time := task.begin_time.getD ⟨0⟩
    end_time := task.end_time.getD ⟨0⟩
    timespan := (task.end_time.getD ⟨0⟩).minutes - (task.begin_time.getD ⟨0⟩).minutes
    holiday := task.holiday }

/-! ### Concrete sample data used by witnesses and counterexamples -/

/-- A task of project "P" missing its begin timestamp. -/
def taskNoBegin : Task :=
  { id := "1", name := "Design Spec", project := some ⟨"P", "Proj"⟩, comment := none,
    estimated_time := some 90, begin_time := none, end_time := some ⟨660⟩,
    holiday := false }

/-- A task with no project reference. -/
def taskNoProj : Task :=
  { id := "2", name := "Design Review", project := none, comment := none,
    estimated_time := none, begin_time := some ⟨540⟩, end_time := some ⟨570⟩,
    holiday := false }

/-- A record whose begin timestamp 1970-01-03 00:00 falls on a Saturday. -/
def recSaturday : AnalysisResultTask :=
  { id := "s", name := "x", group := none, project := none, comment := none,
    estimated_time := none, time_gap_ratio := none, begin_time := ⟨2880⟩,
    end_time := ⟨2940⟩, timespan := 60, holiday := false }

/-- A record on 1970-01-01 with timespan 10 minutes. -/
def recDayA : AnalysisResultTask :=
  { id := "a", name := "a", group := none, project := none, comment := none,
    estimated_time := none, time_gap_ratio := none, begin_time := ⟨540⟩,
    end_time := ⟨550⟩, timespan := 10, holiday := false }

/-- A record on 1970-01-02 with timespan 30 minutes. -/
def recDayB : AnalysisResultTask :=
  { id := "b", name := "b", group := none, project := none, comment := none,
    estimated_time := none, time_gap_ratio := none, begin_time := ⟨1980⟩,
    end_time := ⟨2010⟩, timespan := 30, holiday := false }

/-! ### Lemmas about `chunkBy` -/

theorem chunkBy_cons_nil {α β : Type} [DecidableEq β] (key : α → β) (a : α)
    (rest : List α) (h : chunkBy key rest = []) :
    chunkBy key (a :: rest) = [(key a, [a])] := by
  rw [chunkBy, h]

theorem chunkBy_cons_cons {α β : Type} [DecidableEq β] (key : α → β) (a : α)
    (rest : List α) (k : β) (c : List α) (cs : List (β × List α))
    (h : chunkBy key rest = (k, c) :: cs) :
    chunkBy key (a :: rest) =
      if key a = k then (k, a :: c) :: cs else (key a, [a]) :: (k, c) :: cs := by
  rw [chunkBy, h]

theorem chunkBy_flatten {α β : Type} [DecidableEq β] (key : α → β) :
    ∀ l : List α, ((chunkBy key l).map Prod.snd).flatten = l
  | [] => rfl
  | a :: rest => by
    have ih := chunkBy_flatten key rest
    simp only [chunkBy]
    cases h : chunkBy key rest with
    | nil =>
      rw [h] at ih
      simp at ih
      simp [ih]
    | cons p cs =>
      obtain ⟨k, c⟩ := p
      rw [h] at ih
      by_cases hk : key a = k
      · simp only [hk, if_pos rfl]
        simp only [List.map_cons, List.flatten_cons] at ih ⊢
        simp [ih]
      · simp only [if_neg hk]
        simp only [List.map_cons, List.flatten_cons] at ih ⊢
        simp [ih]

theorem chunkBy_key_eq {α β : Type} [DecidableEq β] (key : α → β) :
    ∀ l : List α, ∀ p ∈ chunkBy key l, ∀ x ∈ p.2, key x = p.1
  | [], p, hp => by simp [chunkBy] at hp
  | a :: rest, p, hp => by
    have ih := chunkBy_key_eq key rest
    simp only [chunkBy] at hp
    cases h : chunkBy key rest with
    | nil =>
      rw [h] at hp
      simp at hp
      subst hp
      intro x hx
      simp at hx
      simp [hx]
    | cons q cs =>
      obtain ⟨k, c⟩ := q
      rw [h] at hp
      by_cases hk : key a = k
      · simp only [hk, if_pos rfl] at hp
        rcases List.mem_cons.mp hp with h1 | h2
        · subst h1
          intro x hx
          rcases List.mem_cons.mp hx with rfl | hx
          · exact hk
          · exact ih ⟨k, c⟩ (h ▸ List.mem_cons_self _ _) x hx
        · exact ih p (h ▸ List.mem_cons_of_mem _ h2)
      · simp only [if_neg hk] at hp
        rcases List.mem_cons.mp hp with h1 | h2
        · subst h1
          intro x hx
          simp at hx
          simp [hx]
        · exact ih p (h ▸ h2)

theorem chunkBy_ne_nil {α β : Type} [DecidableEq β] (key : α → β) :
    ∀ l : List α, ∀ p ∈ chunkBy key l, p.2 ≠ []
  | [], p, hp => by simp [chunkBy] at hp
  | a :: rest, p, hp => by
    have ih := chunkBy_ne_nil key rest
    simp only [chunkBy] at hp
    cases h : chunkBy key rest with
    | nil =>
      rw [h] at hp
      simp at hp
      subst hp
      simp
    | cons q cs =>
      obtain ⟨k, c⟩ := q
      rw [h] at hp
      by_cases hk : key a = k
      · simp only [hk, if_pos rfl] at hp
        rcases List.mem_cons.mp hp with h1 | h2
        · subst h1; simp
        · exact ih p (h ▸ List.mem_cons_of_mem _ h2)
      · simp only [if_neg hk] at hp
        rcases List.mem_cons.mp hp with h1 | h2
        · subst h1; simp
        · exact ih p (h ▸ h2)

theorem chunkBy_keys_mem {α β : Type} [DecidableEq β] (key : α → β)
    (l : List α) (p : β × List α) (hp : p ∈ chunkBy key l) :
    ∃ x ∈ l, key x = p.1 := by
  obtain ⟨x, hx⟩ := List.exists_mem_of_ne_nil p.2 (chunkBy_ne_nil key l p hp)
  refine ⟨x, ?_, chunkBy_key_eq key l p hp x hx⟩
  rw [← chunkBy_flatten key l]
  exact List.mem_flatten.mpr ⟨p.2, List.mem_map_of_mem Prod.snd hp, hx⟩

theorem mem_chunkBy_keys {α β : Type} [DecidableEq β] (key : α → β)
    (l : List α) (x : α) (hx : x ∈ l) :
    key x ∈ (chunkBy key l).map Prod.fst := by
  rw [← chunkBy_flatten key l] at hx
  obtain ⟨c, hc, hxc⟩ := List.mem_flatten.mp hx
  obtain ⟨p, hp, rfl⟩ := List.mem_map.mp hc
  exact List.mem_map.mpr ⟨p, hp, (chunkBy_key_eq key l p hp x hxc).symm⟩

theorem chunkBy_keys_sorted {α β : Type} [DecidableEq β] [LinearOrder β] (key : α → β) :
    ∀ l : List α, l.Pairwise (fun x y => key x ≤ key y) →
      ((chunkBy key l).map Prod.fst).Pairwise (fun a b => a < b)
  | [], _ => by simp [chunkBy]
  | a :: rest, hl => by
    have ha := List.pairwise_cons.mp hl
    have ih := chunkBy_keys_sorted key rest ha.2
    have hub : ∀ b ∈ (chunkBy key rest).map Prod.fst, key a ≤ b := by
      intro b hb
      obtain ⟨p', hp', rfl⟩ := List.mem_map.mp hb
      obtain ⟨x, hx, hxk⟩ := chunkBy_keys_mem key rest p' hp'
      exact hxk ▸ ha.1 x hx
    cases h : chunkBy key rest with
    | nil => rw [chunkBy_cons_nil key a rest h]; simp
    | cons q cs =>
      obtain ⟨k, c⟩ := q
      rw [h] at ih hub
      rw [chunkBy_cons_cons key a rest k c cs h]
      by_cases hk : key a = k
      · rw [if_pos hk]
        have hgoal : List.map Prod.fst ((k, a :: c) :: cs) =
            List.map Prod.fst ((k, c) :: cs) := by simp
        rw [hgoal]
        exact ih
      · rw [if_neg hk]
        have ih2 : List.Pairwise (fun a b => a < b) (k :: List.map Prod.fst cs) := by
          simpa using ih
        have hkle : key a < k :=
          lt_of_le_of_ne (hub k (by simp)) hk
        refine List.Pairwise.cons ?_ ih
        intro b hb
        rcases List.mem_cons.mp (by simpa using hb : b ∈ k :: List.map Prod.fst cs) with
          rfl | hbcs
        · exact hkle
        · exact hkle.trans ((List.pairwise_cons.mp ih2).1 b hbcs)

theorem chunkBy_chunk_filter {α β : Type} [DecidableEq β] (key : α → β) :
    ∀ cs : List (β × List α),
      (∀ p ∈ cs, ∀ x ∈ p.2, key x = p.1) →
      ((cs.map Prod.fst).Nodup) →
      ∀ p ∈ cs, ((cs.map Prod.snd).flatten).filter (fun x => decide (key x = p.1)) = p.2
  | [], _, _, p, hp => by simp at hp
  | q :: cs, hhom, hnd, p, hp => by
    have hq : ∀ x ∈ q.2, key x = q.1 := hhom q (List.mem_cons_self _ _)
    rw [List.map_cons, List.nodup_cons] at hnd
    rcases List.mem_cons.mp hp with rfl | hpcs
    · rw [List.map_cons, List.flatten_cons, List.filter_append]
      rw [List.filter_eq_self.mpr (fun x hx => by simp [hq x hx]),
        List.filter_eq_nil_iff.mpr ?_, List.append_nil]
      intro x hx
      obtain ⟨c, hc, hxc⟩ := List.mem_flatten.mp hx
      obtain ⟨p', hp', rfl⟩ := List.mem_map.mp hc
      have hkey := hhom p' (List.mem_cons_of_mem _ hp') x hxc
      have hne : key x ≠ p.1 := by
        rw [hkey]
        intro hEq
        exact hnd.1 (hEq ▸ List.mem_map_of_mem Prod.fst hp')
      simp [hne]
    · rw [List.map_cons, List.flatten_cons, List.filter_append]
      rw [List.filter_eq_nil_iff.mpr ?_, List.nil_append]
      · exact chunkBy_chunk_filter key cs
          (fun p' h' => hhom p' (List.mem_cons_of_mem _ h')) hnd.2 p hpcs
      · intro x hx
        have hxq := hq x hx
        have hne : key x ≠ p.1 := by
          rw [hxq]
          intro hEq
          exact hnd.1 (hEq ▸ List.mem_map_of_mem Prod.fst hpcs)
        simp [hne]

/-! ### Lemmas about sorting by a key and about `Tasks.group_by` -/

theorem insertionSortByKey_pairwise {α β : Type} [LinearOrder β] (key : α → β)
    (l : List α) :
    (List.insertionSort (fun a b => key a ≤ key b) l).Pairwise
      (fun a b => key a ≤ key b) :=
  @List.sorted_insertionSort α (fun a b => key a ≤ key b)
    (fun a b => inferInstanceAs (Decidable (key a ≤ key b)))
    ⟨fun a b => le_total (key a) (key b)⟩
    ⟨fun _ _ _ hab hbc => le_trans hab hbc⟩ l

theorem group_by_mem_iff (ts : Tasks) (key : AnalysisResultTask → String)
    (p : String × Tasks) :
    p ∈ ts.group_by key ↔ ∃ q ∈ chunkBy key
      (List.insertionSort (fun a b => key a ≤ key b) ts.recs),
      p = (q.1, Tasks.mk q.2 ts.value) := by
  simp [Tasks.group_by, List.mem_map, eq_comm]

theorem group_by_value (ts : Tasks) (key : AnalysisResultTask → String)
    (p : String × Tasks) (hp : p ∈ ts.group_by key) :
    p.2.value = ts.value := by
  obtain ⟨q, _, rfl⟩ := (group_by_mem_iff ts key p).mp hp
  rfl

theorem group_by_key_eq (ts : Tasks) (key : AnalysisResultTask → String)
    (p : String × Tasks) (hp : p ∈ ts.group_by key) :
    ∀ r ∈ p.2.recs, key r = p.1 := by
  obtain ⟨q, hq, rfl⟩ := (group_by_mem_iff ts key p).mp hp
  exact chunkBy_key_eq key _ q hq

theorem group_by_flatten_perm (ts : Tasks) (key : AnalysisResultTask → String) :
    (((ts.group_by key).map (fun p => p.2.recs)).flatten).Perm ts.recs := by
  have h1 : ((ts.group_by key).map (fun p => p.2.recs)) =
      ((chunkBy key (List.insertionSort (fun a b => key a ≤ key b) ts.recs)).map
        Prod.snd) := by
    simp [Tasks.group_by]
  rw [h1, chunkBy_flatten]
  exact List.perm_insertionSort _ ts.recs

theorem group_by_keys_sorted (ts : Tasks) (key : AnalysisResultTask → String) :
    ((ts.group_by key).map Prod.fst).Pairwise (fun a b => a < b) := by
  have h1 : (ts.group_by key).map Prod.fst =
      ((chunkBy key (List.insertionSort (fun a b => key a ≤ key b) ts.recs)).map
        Prod.fst) := by
    simp [Tasks.group_by]
  rw [h1]
  exact chunkBy_keys_sorted key _ (insertionSortByKey_pairwise key ts.recs)

theorem group_by_bucket_perm_filter (ts : Tasks) (key : AnalysisResultTask → String)
    (p : String × Tasks) (hp : p ∈ ts.group_by key) :
    p.2.recs.Perm (ts.recs.filter (fun r => decide (key r = p.1))) := by
  obtain ⟨q, hq, rfl⟩ := (group_by_mem_iff ts key p).mp hp
  have hsorted := insertionSortByKey_pairwise key ts.recs
  have hhom := chunkBy_key_eq key (List.insertionSort (fun a b => key a ≤ key b) ts.recs)
  have hnd : ((chunkBy key (List.insertionSort (fun a b => key a ≤ key b) ts.recs)).map
      Prod.fst).Nodup :=
    (chunkBy_keys_sorted key _ hsorted).imp ne_of_lt
  have hfil := chunkBy_chunk_filter key
    (chunkBy key (List.insertionSort (fun a b => key a ≤ key b) ts.recs)) hhom hnd q hq
  rw [chunkBy_flatten] at hfil
  rw [← hfil]
  exact (List.perm_insertionSort _ ts.recs).filter _

theorem wtpd_values_eq_keys_map (ts : Tasks) :
    ts.work_time_per_days.map (fun p => p.2) =
      (ts.work_time_per_days.map Prod.fst).map (dayTotalSpec ts.recs) := by
  unfold Tasks.work_time_per_days
  set srt := List.insertionSort
    (fun a b : AnalysisResultTask => a.begin_time.date ≤ b.begin_time.date) ts.recs with hsrt
  have hsorted : srt.Pairwise
      (fun a b : AnalysisResultTask => a.begin_time.date ≤ b.begin_time.date) :=
    insertionSortByKey_pairwise (fun r : AnalysisResultTask => r.begin_time.date) ts.recs
  have hhom := chunkBy_key_eq (fun r : AnalysisResultTask => r.begin_time.date) srt
  have hnd : ((chunkBy (fun r : AnalysisResultTask => r.begin_time.date) srt).map
      Prod.fst).Nodup :=
    (chunkBy_keys_sorted _ _ hsorted).imp ne_of_lt
  simp only [List.map_map]
  apply List.map_congr_left
  intro q hq
  simp only [Function.comp_apply]
  show (q.2.map (fun t => t.timespan)).sum = dayTotalSpec ts.recs q.1
  have hfil := chunkBy_chunk_filter (fun r : AnalysisResultTask => r.begin_time.date)
    (chunkBy (fun r : AnalysisResultTask => r.begin_time.date) srt) hhom hnd q hq
  rw [chunkBy_flatten] at hfil
  have hperm : (q.2.map (fun t => t.timespan)).Perm
      ((ts.recs.filter (fun r => decide (r.begin_time.date = q.1))).map
        (fun t => t.timespan)) := by
    refine List.Perm.map _ ?_
    rw [← hfil]
    exact (List.perm_insertionSort _ ts.recs).filter _
  simpa [dayTotalSpec] using hperm.sum_eq

theorem wtpd_keys_perm_dedup (ts : Tasks) :
    (ts.work_time_per_days.map Prod.fst).Perm (dayDatesSpec ts.recs) := by
  unfold Tasks.work_time_per_days
  set srt := List.insertionSort
    (fun a b : AnalysisResultTask => a.begin_time.date ≤ b.begin_time.date) ts.recs with hsrt
  have hsorted : srt.Pairwise
      (fun a b : AnalysisResultTask => a.begin_time.date ≤ b.begin_time.date) :=
    insertionSortByKey_pairwise (fun r : AnalysisResultTask => r.begin_time.date) ts.recs
  have hnd : ((chunkBy (fun r : AnalysisResultTask => r.begin_time.date) srt).map
      Prod.fst).Nodup :=
    (chunkBy_keys_sorted _ _ hsorted).imp ne_of_lt
  rw [List.map_map]
  have hmapfst : (List.map (Prod.fst ∘ fun p : ℤ × List AnalysisResultTask =>
      (p.1, (p.2.map (fun t => t.timespan)).sum))
      (chunkBy (fun r : AnalysisResultTask => r.begin_time.date) srt)) =
      ((chunkBy (fun r : AnalysisResultTask => r.begin_time.date) srt).map Prod.fst) := by
    simp
  rw [hmapfst]
  refine (List.perm_ext_iff_of_nodup hnd (List.nodup_dedup _)).mpr ?_
  intro d
  constructor
  · intro hd
    obtain ⟨q, hq, rfl⟩ := List.mem_map.mp hd
    obtain ⟨x, hx, hxd⟩ := chunkBy_keys_mem _ srt q hq
    have hx' : x ∈ ts.recs := (List.perm_insertionSort _ ts.recs).mem_iff.mp hx
    exact List.mem_dedup.mpr (hxd ▸ List.mem_map_of_mem _ hx')
  · intro hd
    obtain ⟨x, hx', hxd⟩ := List.mem_map.mp (List.mem_dedup.mp hd)
    have hx : x ∈ srt := (List.perm_insertionSort _ ts.recs).mem_iff.mpr hx'
    exact hxd ▸ mem_chunkBy_keys _ srt x hx

theorem wtpd_values_perm (ts : Tasks) :
    (ts.work_time_per_days.map (fun p => p.2)).Perm
      ((dayDatesSpec ts.recs).map (dayTotalSpec ts.recs)) := by
  rw [wtpd_values_eq_keys_map]
  exact (wtpd_keys_perm_dedup ts).map _

/-! ### Helper lemmas about the analyzer pipeline -/

theorem analyze_def (tasks : List Task) (project_id : String) (value : Option ℤ) :
    analyze tasks project_id value =
      ((targetTasks tasks project_id value).project_name project_id).map
        (fun project_name =>
          { project_name := project_name
            value := value
            all := (targetTasks tasks project_id value).analyze
            day := analyzeGroup ((targetTasks tasks project_id value).group_by dayKey)
            group := analyzeGroup
              ((targetTasks tasks project_id value).group_by groupKey) }) := rfl

theorem fromTask?_eq_some (t : Task) (h : hasTimes t = true) :
    AnalysisResultTask.fromTask? t = some (recordOfTaskSpec t) := by
  unfold hasTimes at h
  obtain ⟨hb, he⟩ := Bool.and_eq_true_iff.mp h
  obtain ⟨b, hb'⟩ := Option.isSome_iff_exists.mp hb
  obtain ⟨e, he'⟩ := Option.isSome_iff_exists.mp he
  simp [AnalysisResultTask.fromTask?, recordOfTaskSpec, hb', he']

theorem fromTask?_isSome (t : Task) (h : hasTimes t = true) :
    (AnalysisResultTask.fromTask? t).isSome = true := by
  rw [fromTask?_eq_some t h]
  rfl

theorem filterMap_fromTask_eq_map :
    ∀ l : List Task, (∀ t ∈ l, hasTimes t = true) →
      l.filterMap AnalysisResultTask.fromTask? = l.map recordOfTaskSpec
  | [], _ => rfl
  | t :: l, h => by
    rw [List.filterMap_cons, List.map_cons,
      fromTask?_eq_some t (h t (List.mem_cons_self _ _)),
      filterMap_fromTask_eq_map l (fun x hx => h x (List.mem_cons_of_mem _ hx))]

theorem targetTasks_recs (tasks : List Task) (project_id : String) (value : Option ℤ) :
    (targetTasks tasks project_id value).recs =
      List.insertionSort taskLe
        ((tasks.filter (fun t => hasTimes t && projectMatches project_id t)).map
          recordOfTaskSpec) := by
  show List.insertionSort taskLe
      (((tasks.filter (projectMatches project_id)).filter hasTimes).filterMap
        AnalysisResultTask.fromTask?) = _
  rw [List.filter_filter, filterMap_fromTask_eq_map _ ?_]
  intro t ht
  have hp : (hasTimes t && projectMatches project_id t) = true :=
    (List.mem_filter.mp ht).2
  exact (Bool.and_eq_true_iff.mp hp).1

theorem targetTasks_sorted (tasks : List Task) (project_id : String)
    (value : Option ℤ) :
    (targetTasks tasks project_id value).recs.Pairwise taskLe := by
  unfold targetTasks
  exact @List.sorted_insertionSort AnalysisResultTask taskLe _
    ⟨fun a b => Int.le_total _ _⟩ ⟨fun _ _ _ hab hbc => le_trans hab hbc⟩ _

theorem sum_buckets_work_time (ts : Tasks) (key : AnalysisResultTask → String) :
    (((ts.group_by key).map (fun p => p.2.total_work_time)).sum) =
      ts.total_work_time := by
  have hperm : (List.map (fun t => t.end_time.minutes - t.begin_time.minutes)
      (((ts.group_by key).map (fun p => p.2.recs)).flatten)).Perm
      (List.map (fun t => t.end_time.minutes - t.begin_time.minutes) ts.recs) :=
    (group_by_flatten_perm ts key).map _
  have hsum := hperm.sum_eq
  rw [List.map_flatten, List.sum_flatten, List.map_map, List.map_map] at hsum
  exact hsum

/-! ### The claims -/

/-- C1: if no task in the input both references the target project and carries
both timestamps (this covers both "no task matches the project id" and
"matching tasks all lack a begin or end timestamp"), `analyze` returns the
explicit absent result `none`; being a total Lean function of its inputs, the
embedding also exhibits that no panic occurs on the way there. -/
theorem analyze_none_of_no_matching_task (tasks : List Task) (project_id : String)
    (value : Option ℤ)
    (h : tasks.all (fun t => !(projectMatches project_id t && hasTimes t)) = true) :
    analyze tasks project_id value = none := by
  rw [analyze_def]
  have hfil : tasks.filter (fun t => hasTimes t && projectMatches project_id t) = [] := by
    rw [List.filter_eq_nil_iff]
    intro t ht
    have h1 := List.all_eq_true.mp h t ht
    rw [Bool.not_eq_true', Bool.and_eq_false_iff] at h1
    intro hcon
    rw [Bool.and_eq_true_iff] at hcon
    rcases h1 with h1 | h1 <;> simp [h1] at hcon
  have hrecs : (targetTasks tasks project_id value).recs = [] := by
    rw [targetTasks_recs, hfil]
    rfl
  have hpn : (targetTasks tasks project_id value).project_name project_id = none := by
    unfold Tasks.project_name
    rw [hrecs]
    rfl
  rw [hpn]
  rfl

/-- C1 witness: a project-"P" query over one "P" task missing its begin
timestamp and one task with no project at all yields `none`. -/
theorem analyze_none_of_no_matching_task_witness :
    ([taskNoBegin, taskNoProj].all
      (fun t => !(projectMatches "P" t && hasTimes t)) = true) ∧
      analyze [taskNoBegin, taskNoProj] "P" (some 3) = none :=
  ⟨by decide, analyze_none_of_no_matching_task [taskNoBegin, taskNoProj] "P" (some 3)
    (by decide)⟩

/-- C5: the aggregate's total time ratio is total work over total estimated
when the latter is nonzero and absent when it is zero; the per-value ratio is
total work over the scalar exactly when the scalar is present; grouping passes
the parent's scalar to every bucket, so a call with no scalar yields an absent
per-value ratio on every bucket. -/
theorem ratio_division_guards (recs : List AnalysisResultTask) (value : Option ℤ) :
    ((Tasks.mk recs value).analyze.total_time_gap_ratio =
      if (Tasks.mk recs value).total_estimated_time = 0 then none
      else some (((Tasks.mk recs value).total_work_time : ℚ) /
        ((Tasks.mk recs value).total_estimated_time : ℚ))) ∧
    ((Tasks.mk recs value).analyze.work_time_per_value =
      value.map (fun k => ((Tasks.mk recs value).total_work_time : ℚ) / (k : ℚ))) ∧
    (∀ key, ((Tasks.mk recs value).group_by key).all
      (fun p => p.2.value == value) = true) ∧
    (∀ key, ((Tasks.mk recs none).group_by key).all
      (fun p => decide (p.2.analyze.work_time_per_value = none)) = true) := by
  refine ⟨rfl, rfl, ?_, ?_⟩
  · intro key
    rw [List.all_eq_true]
    intro p hp
    exact beq_iff_eq.mpr (group_by_value _ key p hp)
  · intro key
    rw [List.all_eq_true]
    intro p hp
    have hv : p.2.value = none := group_by_value _ key p hp
    apply decide_eq_true
    show p.2.work_time_per_value = none
    unfold Tasks.work_time_per_value
    rw [hv]
    rfl

/-- C6: in every produced result, the day-type buckets' total work times sum to
the whole-set total work time, and likewise for the group buckets — the two
partitions neither lose nor duplicate any record's minutes. -/
theorem partition_sum_law (tasks : List Task) (project_id : String)
    (value : Option ℤ) :
    (analyze tasks project_id value).elim True (fun r =>
      ((r.day.map (fun p => p.2.total_work_time)).sum = r.all.total_work_time) ∧
      ((r.group.map (fun p => p.2.total_work_time)).sum = r.all.total_work_time)) := by
  rw [analyze_def]
  cases hpn : (targetTasks tasks project_id value).project_name project_id with
  | none => exact trivial
  | some name =>
    refine ⟨?_, ?_⟩ <;>
    · show ((analyzeGroup _).map (fun p => p.2.total_work_time)).sum =
        (targetTasks tasks project_id value).analyze.total_work_time
      unfold analyzeGroup
      rw [List.map_map]
      have : ((fun p : String × TasksAnalysisResult => p.2.total_work_time) ∘
          fun p : String × Tasks => (p.1, p.2.analyze)) =
          fun p : String × Tasks => p.2.total_work_time := rfl
      rw [this, sum_buckets_work_time]
      rfl

/-- C9: `analyze` is a pure function — two invocations on the same input are
equal — and the bucket orders carry no hidden nondeterminism: in any produced
result both the day-type labels and the group labels are strictly sorted. -/
theorem analyze_deterministic (tasks : List Task) (project_id : String)
    (value : Option ℤ) :
    analyze tasks project_id value = analyze tasks project_id value ∧
    (analyze tasks project_id value).elim True (fun r =>
      (r.day.map Prod.fst).Pairwise (fun a b => a < b) ∧
      (r.group.map Prod.fst).Pairwise (fun a b => a < b)) := by
  refine ⟨rfl, ?_⟩
  rw [analyze_def]
  cases hpn : (targetTasks tasks project_id value).project_name project_id with
  | none => exact trivial
  | some name =>
    refine ⟨?_, ?_⟩ <;>
    · show ((analyzeGroup _).map Prod.fst).Pairwise (fun a b => a < b)
      unfold analyzeGroup
      rw [List.map_map]
      exact group_by_keys_sorted _ _

/-- C10: the partial operations are safe. First: every task surviving the two
filters in `analyze` converts without panicking (the modelled `unwrap`s in
`From<Task>` cannot hit `None`). Second: whenever `project_name`'s search
predicate matches a record, that record's project reference is present, so the
`unwrap` inside `project_name` cannot panic either. -/
theorem unwrap_operations_safe (tasks : List Task) (project_id : String)
    (recs : List AnalysisResultTask) :
    (((tasks.filter (projectMatches project_id)).filter hasTimes).all
      (fun t => (AnalysisResultTask.fromTask? t).isSome) = true) ∧
    ((recs.find? (fun t => (t.project.map (fun p => p.id == project_id)).getD
      false)).elim True (fun r => r.project.isSome = true)) := by
  constructor
  · rw [List.all_eq_true]
    intro t ht
    exact fromTask?_isSome t (List.of_mem_filter ht)
  · cases hf : recs.find? (fun t => (t.project.map
      (fun p => p.id == project_id)).getD false) with
    | none => exact trivial
    | some r =>
      have hpred := List.find?_some hf
      cases hproj : r.project with
      | none => rw [hproj] at hpred; simp at hpred
      | some p =>
        show r.project.isSome = true
        rw [hproj]
        rfl

/-- C7: the record conversion derives the group label as the first
whitespace-delimited token of the task name exactly when the name has at least
two tokens (absent otherwise), and the group breakdown buckets every record
under its derived label with the sentinel `"-"` standing in for an absent
label. -/
theorem group_label_rule (t : Task) (recs : List AnalysisResultTask)
    (v : Option ℤ) :
    ((AnalysisResultTask.fromTask? t).elim True
      (fun r => r.group = groupLabelSpec t.name)) ∧
    ((Tasks.mk recs v).group_by groupKey).all
      (fun p => p.2.recs.all (fun r => r.group.getD "-" == p.1)) = true := by
  constructor
  · cases hb : t.begin_time with
    | none => simp [AnalysisResultTask.fromTask?, hb]
    | some b =>
      cases he : t.end_time with
      | none => simp [AnalysisResultTask.fromTask?, hb, he]
      | some e =>
        have : AnalysisResultTask.fromTask? t = some (recordOfTaskSpec t) :=
          fromTask?_eq_some t (by simp [hasTimes, hb, he])
        rw [this]
        show (tupleCombFirst (splitWhitespace t.name)).map Prod.fst =
          groupLabelSpec t.name
        cases hs : splitWhitespace t.name with
        | nil => simp [tupleCombFirst, groupLabelSpec, hs]
        | cons a l =>
          cases l with
          | nil => simp [tupleCombFirst, groupLabelSpec, hs]
          | cons b l2 => simp [tupleCombFirst, groupLabelSpec, hs]
  · rw [List.all_eq_true]
    intro p hp
    rw [List.all_eq_true]
    intro r hr
    exact beq_iff_eq.mpr (group_by_key_eq _ groupKey p hp r hr)

/-- C8 counterexample: for a record whose begin timestamp falls on a Saturday,
the day-type key is the Japanese label `"休日"`, not the label `"holiday"`
stated by the claim. -/
theorem day_label_not_english :
    dayKey recSaturday = "休日" ∧ "休日" ≠ "holiday" :=
  ⟨by decide, by decide⟩

/-- C8 (amended): the day-type breakdown assigns the label `"休日"` (Japanese
for holiday) when the begin timestamp falls on a Saturday or Sunday or the
holiday flag is set, and `"平日"` (workday) otherwise; the breakdown buckets
every record under that key. -/
theorem day_label_rule (r : AnalysisResultTask) (recs : List AnalysisResultTask)
    (v : Option ℤ) :
    (dayKey r =
      if (r.begin_time.weekday = 5 ∨ r.begin_time.weekday = 6) ∨ r.holiday
      then "休日" else "平日") ∧
    ((Tasks.mk recs v).group_by dayKey).all
      (fun p => p.2.recs.all (fun x => dayKey x == p.1)) = true := by
  constructor
  · unfold dayKey
    by_cases hw : r.begin_time.weekday = 5 ∨ r.begin_time.weekday = 6
    · simp [hw]
    · simp [hw]
  · rw [List.all_eq_true]
    intro p hp
    rw [List.all_eq_true]
    intro x hx
    exact beq_iff_eq.mpr (group_by_key_eq _ dayKey p hp x hx)

/-- C2: in every produced result the normalized collection holds exactly one
record per raw task that references the target project and has both
timestamps (as a permutation of the converted kept tasks), is sorted ascending
by begin timestamp, and every day/group bucket list only contains records of
the normalized collection — filtered-out tasks appear in no output list. -/
theorem normalization_rule (tasks : List Task) (project_id : String)
    (value : Option ℤ) :
    (analyze tasks project_id value).elim True (fun r =>
      r.all.tasks.Perm
        ((tasks.filter (fun t => projectMatches project_id t && hasTimes t)).map
          recordOfTaskSpec) ∧
      r.all.tasks.Pairwise
        (fun a b => a.begin_time.minutes ≤ b.begin_time.minutes) ∧
      ((r.day ++ r.group).all
        (fun p => p.2.tasks.all (fun x => decide (x ∈ r.all.tasks))) = true)) := by
  rw [analyze_def]
  cases hpn : (targetTasks tasks project_id value).project_name project_id with
  | none => exact trivial
  | some name =>
    refine ⟨?_, ?_, ?_⟩
    · show (targetTasks tasks project_id value).recs.Perm _
      rw [targetTasks_recs]
      refine (List.perm_insertionSort _ _).trans ?_
      have hfe : tasks.filter (fun t => hasTimes t && projectMatches project_id t) =
          tasks.filter (fun t => projectMatches project_id t && hasTimes t) :=
        List.filter_congr (fun x _ => Bool.and_comm _ _)
      rw [hfe]
    · show (targetTasks tasks project_id value).recs.Pairwise _
      exact targetTasks_sorted tasks project_id value
    · rw [List.all_eq_true]
      intro p hp
      rw [List.all_eq_true]
      intro x hx
      apply decide_eq_true
      show x ∈ (targetTasks tasks project_id value).recs
      have hin : ∀ key, p ∈ analyzeGroup
          ((targetTasks tasks project_id value).group_by key) → x ∈
          (targetTasks tasks project_id value).recs := by
        intro key hpk
        obtain ⟨q, hq, rfl⟩ := List.mem_map.mp hpk
        have hxq : x ∈ q.2.recs := hx
        have hxf : x ∈ (((targetTasks tasks project_id value).group_by key).map
            (fun p => p.2.recs)).flatten :=
          List.mem_flatten.mpr ⟨q.2.recs, List.mem_map_of_mem _ hq, hxq⟩
        exact (group_by_flatten_perm _ key).mem_iff.mp hxf
      rcases List.mem_append.mp hp with hp' | hp'
      · exact hin dayKey hp'
      · exact hin groupKey hp'

theorem chunkBy_cons_ne_nil {α β : Type} [DecidableEq β] (key : α → β)
    (a : α) (l : List α) : chunkBy key (a :: l) ≠ [] := by
  cases h : chunkBy key l with
  | nil => rw [chunkBy_cons_nil key a l h]; simp
  | cons q cs =>
    obtain ⟨k, c⟩ := q
    rw [chunkBy_cons_cons key a l k c cs h]
    by_cases hk : key a = k
    · rw [if_pos hk]; simp
    · rw [if_neg hk]; simp

theorem wtpd_ne_nil (ts : Tasks) (h : ts.recs ≠ []) :
    ts.work_time_per_days ≠ [] := by
  unfold Tasks.work_time_per_days
  cases hs : List.insertionSort
      (fun a b : AnalysisResultTask => a.begin_time.date ≤ b.begin_time.date)
      ts.recs with
  | nil =>
    exfalso
    apply h
    have hperm := List.perm_insertionSort
      (fun a b : AnalysisResultTask => a.begin_time.date ≤ b.begin_time.date) ts.recs
    rw [hs] at hperm
    exact (hperm.nil_eq).symm
  | cons a l =>
    intro hcon
    exact chunkBy_cons_ne_nil _ a l (List.map_eq_nil_iff.mp hcon)

/-- C4: for a non-empty bucket the median field is the entry at zero-based
index `n / 2` of the ascending-sorted per-day series (so the upper middle
value for even length, witnessed by the series `[10, 30]` giving `30`). -/
theorem median_index_rule (ts : Tasks) (h : ts.recs ≠ []) :
    sortedDaySeriesSpec ts.recs ≠ [] ∧
    (sortedDaySeriesSpec ts.recs).Pairwise (fun a b : ℤ => a ≤ b) ∧
    ts.work_time_per_day_median =
      (sortedDaySeriesSpec ts.recs).getD
        ((sortedDaySeriesSpec ts.recs).length / 2) 0 := by
  have hperm := wtpd_values_perm ts
  have hsorteq : List.insertionSort (fun a b : ℤ => a ≤ b)
      (ts.work_time_per_days.map (fun p => p.2)) = sortedDaySeriesSpec ts.recs := by
    apply List.eq_of_perm_of_sorted (r := fun a b : ℤ => a ≤ b)
    · exact ((List.perm_insertionSort _ _).trans hperm).trans
        (List.perm_insertionSort _ _).symm
    · exact List.sorted_insertionSort _ _
    · exact List.sorted_insertionSort _ _
  refine ⟨?_, ?_, ?_⟩
  · rw [← hsorteq]
    intro hcon
    have hlen := congrArg List.length hcon
    rw [(List.perm_insertionSort _ _).length_eq, List.length_map] at hlen
    exact wtpd_ne_nil ts h (List.length_eq_zero.mp hlen)
  · exact List.sorted_insertionSort _ _
  · show (List.insertionSort (fun a b : ℤ => a ≤ b)
        (ts.work_time_per_days.map (fun p => p.2))).getD
        ((List.insertionSort (fun a b : ℤ => a ≤ b)
          (ts.work_time_per_days.map (fun p => p.2))).length / 2) 0 = _
    rw [hsorteq]

/-- C4 witness: two records on different days with timespans 10 and 30 give a
per-day series `[10, 30]` whose median is 30 (index 1), not the average 20. -/
theorem median_index_rule_witness :
    (Tasks.mk [recDayA, recDayB] none).recs ≠ [] ∧
      (Tasks.mk [recDayA, recDayB] none).work_time_per_day_median = 30 := by
  have h := median_index_rule (Tasks.mk [recDayA, recDayB] none) (by decide)
  exact ⟨by decide, h.2.2.trans (by decide)⟩

/-- C3: the deviation field equals the square root of the sum, over the
distinct calendar dates, of the squared difference between that date's total
and the mean, divided by the number of member records (not the number of
distinct days). Stated for any record list whose cached `timespan` fields are
consistent with the timestamps, which holds for every record the pipeline
constructs. -/
theorem deviation_denominator_rule (ts : Tasks)
    (h : ts.recs.all
      (fun r => r.timespan == r.end_time.minutes - r.begin_time.minutes) = true) :
    ts.work_time_per_day_deviation =
      Real.sqrt
        (((((dayDatesSpec ts.recs).map (fun d =>
            ((dayTotalSpec ts.recs d : ℚ) - meanPerDaySpec ts.recs) ^ 2)).sum /
          (ts.recs.length : ℚ) : ℚ) : ℝ)) := by
  have hmean : ts.work_time_per_day = meanPerDaySpec ts.recs := by
    unfold Tasks.work_time_per_day meanPerDaySpec Tasks.total_work_time Tasks.work_days
    have hts : (ts.recs.map
        (fun t => t.end_time.minutes - t.begin_time.minutes)).sum =
        (ts.recs.map (fun r => r.timespan)).sum := by
      apply congrArg
      apply List.map_congr_left
      intro r hr
      exact (beq_iff_eq.mp (List.all_eq_true.mp h r hr)).symm
    rw [hts]
    unfold dayDatesSpec
    congr 1
  unfold Tasks.work_time_per_day_deviation
  have hsum : (ts.work_time_per_days.map
      (fun p => ((p.2 : ℚ) - ts.work_time_per_day) ^ 2)).sum =
      ((dayDatesSpec ts.recs).map (fun d =>
        ((dayTotalSpec ts.recs d : ℚ) - meanPerDaySpec ts.recs) ^ 2)).sum := by
    rw [hmean]
    have hp2 : ts.work_time_per_days.map
        (fun p => ((p.2 : ℚ) - meanPerDaySpec ts.recs) ^ 2) =
        (ts.work_time_per_days.map (fun p => p.2)).map
          (fun v : ℤ => ((v : ℚ) - meanPerDaySpec ts.recs) ^ 2) := by
      rw [List.map_map]
      rfl
    rw [hp2]
    have hps := ((wtpd_values_perm ts).map
      (fun v : ℤ => ((v : ℚ) - meanPerDaySpec ts.recs) ^ 2)).sum_eq
    rw [hps, List.map_map]
    rfl
  rw [hsum]

/-- C3 witness: the two-record, two-day sample satisfies the timespan
consistency hypothesis, and its deviation is the spec formula's value. -/
theorem deviation_denominator_rule_witness :
    ((Tasks.mk [recDayA, recDayB] none).recs.all
      (fun r => r.timespan == r.end_time.minutes - r.begin_time.minutes) = true) ∧
    (Tasks.mk [recDayA, recDayB] none).work_time_per_day_deviation =
      Real.sqrt
        (((((dayDatesSpec (Tasks.mk [recDayA, recDayB] none).recs).map (fun d =>
            ((dayTotalSpec (Tasks.mk [recDayA, recDayB] none).recs d : ℚ) -
              meanPerDaySpec (Tasks.mk [recDayA, recDayB] none).recs) ^ 2)).sum /
          ((Tasks.mk [recDayA, recDayB] none).recs.length : ℚ) : ℚ) : ℝ)) :=
  ⟨by decide, deviation_denominator_rule (Tasks.mk [recDayA, recDayB] none) (by decide)⟩

end Analyzer
